import Mathlib

/-!
# Verification of the cachette cache library

Shallow embedding of the core operations of the `cachette` TypeScript
library (unitoio/cachette) together with proofs about the behaviour of:

* `CacheInstance.getOrFetchValue` (single-flight get-or-fetch coordinator),
  both as a sequential interpreter over an abstract tier and as a
  small-step interleaving machine for the in-process coalescing claims;
* `WriteThroughCache.setValue` / `getValue` (tiered write-through cache);
* `RedisCache.serializeValue` / `deserializeValue` (value codec);
* `CacheClient.buildCacheKey` (deterministic cache-key construction).

Machine numbers are exact in the source paths we embed (TTLs are passed
through arithmetically), so they are modelled by `Nat`/`Int`/`ℚ`.
JavaScript dictionaries are modelled by association lists with
one-binding-per-key update semantics.
-/

namespace Cachette

/-! ## Cachable values, fetch results and outcomes

`CachableValue` in the source is `any`.  The coordinator only ever
inspects a value through `instanceof Error` and `!== undefined`, so we
model a defined cachable value as either a plain value or an error
object, and `undefined` as `Option.none` around it. -/

/-- A defined JS value as seen by `CacheInstance`: either a plain
(non-`Error`) value or an `Error` instance. -/
inductive CV (α ε : Type) where
  | plain (a : α)
  | err (e : ε)
deriving DecidableEq, Repr

/-- Settlement of the promise produced by `fetchFunction()`: it either
resolves (possibly with `undefined`, modelled as `none`) or rejects with
an error. -/
inductive FetchResult (α ε : Type) where
  | ok (v : Option (CV α ε))
  | threw (e : ε)
deriving DecidableEq, Repr

/-- Observable outcome of a `getOrFetchValue` call: a returned value
(possibly `undefined`) or a thrown error. -/
inductive GoFOutcome (α ε : Type) where
  | ret (v : Option (CV α ε))
  | thrown (e : ε)
deriving DecidableEq, Repr

/-- Awaiting an already-in-flight fetch promise yields its settlement. -/
def settleOutcome {α ε : Type} : FetchResult α ε → GoFOutcome α ε
  | .ok v => .ret v
  | .threw e => .thrown e

/-! ## Sequential interpreter for `getOrFetchValue`

`src/lib/CacheInstance.ts`, `getOrFetchValue`.  The tier is abstracted
by oracles: `get1`/`get2` are the tier's answers to the first and the
(lock-path) second `this.getValue(key)` read, `activeFetch` is the
settlement of the promise found in `this.activeFetches[key]` (if any),
and `fetch` the settlement of `fetchFunction()`.  The interpreter
returns the outcome together with the list of effects it performed, in
order. -/

/-- Effects performed by one `getOrFetchValue` call, in program order. -/
inductive GoFEvent (α ε : Type) where
  /-- an `await this.getValue(key)` read -/
  | getValue (key : String)
  /-- `await this.lock(name, ttlMs)` -/
  | lockAcquire (name : String) (ttlMs : Nat)
  /-- `await this.unlock(lock)` in the `finally` block -/
  | unlock
  /-- `this.activeFetches[key] = fetchFunction()`: the compute function
  is invoked and its promise installed in the in-flight table -/
  | fetchCalled
  /-- `await this.setValue(key, v, ttl)` -/
  | setValue (key : String) (v : CV α ε) (ttl : Nat)
  /-- `delete this.activeFetches[key]` in the `finally` block -/
  | delActiveFetch (key : String)
deriving DecidableEq, Repr

/-- Result of the `cached instanceof Error` filtering applied to a
`this.getValue(key)` read (lines 144-154 and 170-180 of
`CacheInstance.ts`): re-throw a stored error when error-caching is
enabled, treat it as absent otherwise; a plain value is a hit. -/
inductive CachedCheck (α ε : Type) where
  | throwIt (e : ε)
  | hit (v : CV α ε)
  | miss
deriving DecidableEq, Repr

/-- `let cached = await this.getValue(key); if (cached instanceof Error)
{ if (shouldCacheError) throw cached; else cached = undefined; }
if (cached !== undefined) return cached;` distilled into a three-way
check. -/
def filterCached {α ε : Type} (shouldCacheError : Option (ε → Bool)) :
    Option (CV α ε) → CachedCheck α ε
  | some (.err e) => if shouldCacheError.isSome then .throwIt e else .miss
  | some (.plain a) => .hit (.plain a)
  | none => .miss

/-- The fetch body of `getOrFetchValue` (lines 183-209): invoke
`fetchFunction`, cache the result or the error per policy, run the
`finally` block, and return or re-throw.  `locked` records whether the
distributed lock is held (so the `finally` block must release it).
`evs` is the trace accumulated so far.

In the source, `result` is only assigned when `fetchFunction` resolves
and `error` only when it rejects, so the `if (error && shouldCacheError
&& shouldCacheError(error)) ... else if (result !== undefined) ...`
cascade splits into the two settlement cases below. -/
def fetchBody {α ε : Type} (key : String) (ttl : Nat)
    (fetch : FetchResult α ε) (shouldCacheError : Option (ε → Bool))
    (locked : Bool) (evs : List (GoFEvent α ε)) :
    GoFOutcome α ε × List (GoFEvent α ε) :=
  let finallyEvs : List (GoFEvent α ε) :=
    [.delActiveFetch key] ++ (if locked then [.unlock] else [])
  match fetch with
  | .threw e =>
    let cacheEvs : List (GoFEvent α ε) :=
      match shouldCacheError with
      | some p => if p e then [.setValue key (.err e) ttl] else []
      | none => []
    (.thrown e, evs ++ [.fetchCalled] ++ cacheEvs ++ finallyEvs)
  | .ok r =>
    let cacheEvs : List (GoFEvent α ε) :=
      match r with
      | some v => [.setValue key v ttl]
      | none => []
    (.ret r, evs ++ [.fetchCalled] ++ cacheEvs ++ finallyEvs)

/-- Sequential embedding of `CacheInstance.getOrFetchValue(key, ttl,
fetchFunction, lockTtl, shouldCacheError)`.

* `lockTtl = 0` models a falsy `lockTtl` (`undefined`, `0`);
* `lockingSupported` is the tier's `isLockingSupported()`;
* `get1` / `get2` are the tier's answers to the first and second
  `getValue(key)` reads;
* `activeFetch` is the settlement of an existing in-flight promise
  found in `this.activeFetches[key]`, or `none` when the table has no
  entry for `key`. -/
def getOrFetchValue {α ε : Type} (key : String) (ttl : Nat)
    (fetch : FetchResult α ε) (lockTtl : Nat)
    (shouldCacheError : Option (ε → Bool)) (lockingSupported : Bool)
    (get1 get2 : Option (CV α ε)) (activeFetch : Option (FetchResult α ε)) :
    GoFOutcome α ε × List (GoFEvent α ε) :=
  -- already cached?
  match filterCached shouldCacheError get1 with
  | .throwIt e => (.thrown e, [.getValue key])
  | .hit v => (.ret (some v), [.getValue key])
  | .miss =>
    -- already fetching?
    match activeFetch with
    | some f => (settleOutcome f, [.getValue key])
    | none =>
      -- I'm the one fetching: get the lock if needed
      if lockTtl != 0 && lockingSupported then
        let lockName := "lock__" ++ key
        let evs := [.getValue key, .lockAcquire lockName (lockTtl * 1000)]
        -- check if the value has been populated while we were locking
        match filterCached shouldCacheError get2 with
        | .throwIt e =>
          (.thrown e, evs ++ [.getValue key, .delActiveFetch key, .unlock])
        | .hit v =>
          (.ret (some v), evs ++ [.getValue key, .delActiveFetch key, .unlock])
        | .miss =>
          fetchBody key ttl fetch shouldCacheError true
            (evs ++ [.getValue key])
      else
        fetchBody key ttl fetch shouldCacheError false [.getValue key]

/-! ### Claims about the sequential coordinator -/

/-- **C2** Second-check under the distributed lock: in `getOrFetchValue`,
when `lockTtl` is truthy (`≠ 0`) and the tier reports locking supported,
the lock named `lock__{key}` is acquired for `lockTtl * 1000`
milliseconds, then the cache is read a second time inside the critical
section, and if that read returns a non-absent value it is returned
without ever invoking the compute function (the trace contains no
`fetchCalled` event; the `finally` block still releases the lock). -/
theorem getOrFetchValue_second_check {α ε : Type} (key : String) (ttl : Nat)
    (fetch : FetchResult α ε) (lockTtl : Nat) (sce : Option (ε → Bool))
    (v : α) (h : lockTtl ≠ 0) :
    getOrFetchValue key ttl fetch lockTtl sce true none (some (.plain v)) none =
      (.ret (some (.plain v)),
        [.getValue key, .lockAcquire ("lock__" ++ key) (lockTtl * 1000),
         .getValue key, .delActiveFetch key, .unlock]) ∧
    GoFEvent.fetchCalled ∉
      (getOrFetchValue key ttl fetch lockTtl sce true none
        (some (.plain v)) none).2 := by
  have hb : (lockTtl != 0) = true := by simpa using h
  refine ⟨?_, ?_⟩ <;> simp [getOrFetchValue, filterCached, hb]

/-- Witness for `getOrFetchValue_second_check` at a concrete input. -/
theorem getOrFetchValue_second_check_witness :
    getOrFetchValue (α := Nat) (ε := Nat) "k" 5 (.ok none) 2 none true none
        (some (.plain 7)) none =
      (.ret (some (.plain 7)),
        [.getValue "k", .lockAcquire "lock__k" 2000,
         .getValue "k", .delActiveFetch "k", .unlock]) :=
  (getOrFetchValue_second_check "k" 5 (.ok none) 2 none 7 (by decide)).1

/-- **C3** Store policy on settlement of the fetch in `getOrFetchValue`
(no lock requested, initial read missed, no prior in-flight fetch):
if the compute function resolves with a non-`undefined` result, `setValue
key result ttl` is performed and the result is returned; if it resolves
with `undefined`, nothing is stored and `undefined` is returned; if it
throws `e`, `setValue key e ttl` is performed iff `shouldCacheError` was
supplied and holds of `e`, and the error is re-thrown in every case. -/
theorem getOrFetchValue_store_policy {α ε : Type} (key : String) (ttl : Nat)
    (fetch : FetchResult α ε) (sce : Option (ε → Bool)) (lsup : Bool) :
    (∀ v : CV α ε, fetch = .ok (some v) →
      getOrFetchValue key ttl fetch 0 sce lsup none none none =
        (.ret (some v),
          [.getValue key, .fetchCalled, .setValue key v ttl,
           .delActiveFetch key])) ∧
    (fetch = .ok none →
      getOrFetchValue key ttl fetch 0 sce lsup none none none =
        (.ret none, [.getValue key, .fetchCalled, .delActiveFetch key])) ∧
    (∀ e : ε, fetch = .threw e →
      (getOrFetchValue key ttl fetch 0 sce lsup none none none).1 =
          .thrown e ∧
      (GoFEvent.setValue key (.err e) ttl ∈
          (getOrFetchValue key ttl fetch 0 sce lsup none none none).2 ↔
        ∃ p, sce = some p ∧ p e = true)) := by
  refine ⟨?_, ?_, ?_⟩
  · rintro v rfl
    simp [getOrFetchValue, filterCached, fetchBody]
  · rintro rfl
    simp [getOrFetchValue, filterCached, fetchBody]
  · rintro e rfl
    refine ⟨by simp [getOrFetchValue, filterCached, fetchBody], ?_⟩
    cases sce with
    | none => simp [getOrFetchValue, filterCached, fetchBody]
    | some p =>
      cases hp : p e <;>
        simp [getOrFetchValue, filterCached, fetchBody, hp]

/-- Witness for `getOrFetchValue_store_policy` at a concrete input. -/
theorem getOrFetchValue_store_policy_witness :
    getOrFetchValue (α := Nat) (ε := Nat) "k" 9 (.ok (some (.plain 3))) 0
        none false none none none =
      (.ret (some (.plain 3)),
        [.getValue "k", .fetchCalled, .setValue "k" (.plain 3) 9,
         .delActiveFetch "k"]) :=
  (getOrFetchValue_store_policy "k" 9 (.ok (some (.plain 3))) none false).1
    (.plain 3) rfl

/-- **C4** Cached-error read policy: when the initial read returns a
stored error object, the call re-throws that error if error-caching is
enabled (a `shouldCacheError` callback was supplied), and otherwise
treats the entry as absent: it behaves exactly as the identical call
whose initial read returned `undefined` (so a plain invocation and an
error-caching invocation can share the same key). -/
theorem getOrFetchValue_cached_error_policy {α ε : Type} (key : String)
    (ttl : Nat) (fetch : FetchResult α ε) (lockTtl : Nat) (lsup : Bool)
    (get2 : Option (CV α ε)) (af : Option (FetchResult α ε)) (e : ε) :
    (∀ p : ε → Bool,
      getOrFetchValue key ttl fetch lockTtl (some p) lsup
          (some (.err e)) get2 af =
        (.thrown e, [.getValue key])) ∧
    getOrFetchValue key ttl fetch lockTtl none lsup
        (some (.err e)) get2 af =
      getOrFetchValue key ttl fetch lockTtl none lsup none get2 af := by
  exact ⟨fun p => rfl, rfl⟩

/-- **C9** Requesting a lock on a tier that does not support locking is
silently ignored: when `isLockingSupported()` is `false`, a call with
any `lockTtl` equals the identical call with `lockTtl` falsy (omitted),
and the trace never contains a `lock` or `unlock` effect (so the
base-class `lock`/`unlock` methods, which would throw `unsupported`,
are never invoked). -/
theorem getOrFetchValue_lock_unsupported {α ε : Type} (key : String)
    (ttl : Nat) (fetch : FetchResult α ε) (lockTtl : Nat)
    (sce : Option (ε → Bool)) (get1 get2 : Option (CV α ε))
    (af : Option (FetchResult α ε)) :
    getOrFetchValue key ttl fetch lockTtl sce false get1 get2 af =
      getOrFetchValue key ttl fetch 0 sce false get1 get2 af ∧
    (∀ name ms, GoFEvent.lockAcquire name ms ∉
      (getOrFetchValue key ttl fetch lockTtl sce false get1 get2 af).2) ∧
    GoFEvent.unlock ∉
      (getOrFetchValue key ttl fetch lockTtl sce false get1 get2 af).2 := by
  cases h1 : filterCached sce get1 with
  | throwIt e => refine ⟨?_, ?_, ?_⟩ <;> simp [getOrFetchValue, h1]
  | hit v => refine ⟨?_, ?_, ?_⟩ <;> simp [getOrFetchValue, h1]
  | miss =>
    cases af with
    | some f => refine ⟨?_, ?_, ?_⟩ <;> simp [getOrFetchValue, h1]
    | none =>
      cases fetch with
      | ok r =>
        cases r <;>
          refine ⟨?_, ?_, ?_⟩ <;> simp [getOrFetchValue, h1, fetchBody]
      | threw e =>
        cases sce with
        | none => refine ⟨?_, ?_, ?_⟩ <;>
            simp [getOrFetchValue, h1, fetchBody]
        | some p =>
          cases hp : p e <;>
            (refine ⟨?_, ?_, ?_⟩ <;>
              simp [getOrFetchValue, h1, fetchBody, hp])

/-! ## Write-through tier

`src/lib/WriteThroughCache.ts` composes a local tier and two Redis
handles (a writer and a read-only reader) behind the `CacheInstance`
contract.  A tier is abstracted as explicit state passing; TTLs are
JS numbers on which only exact arithmetic (`* 1000`, `/ 1000`) is
performed in the embedded paths, so they are modelled by `ℚ`. -/

/-- The slice of the `CacheInstance` contract that `WriteThroughCache`
uses: `getValue`, `setValue (ttl seconds)` and `getTtl` (remaining TTL
in milliseconds, `none` when the entry does not exist). -/
structure TierOps (σ α ε : Type) where
  getValue : σ → String → Option (CV α ε) × σ
  setValue : σ → String → Option (CV α ε) → ℚ → Bool × σ
  getTtl : σ → String → Option ℚ × σ

/-- Observable tier calls made by one `WriteThroughCache` operation,
in program order. -/
inductive WTEvent (α ε : Type) where
  | localGet (key : String)
  | localSet (key : String) (v : Option (CV α ε)) (ttl : ℚ)
  | redisGet (key : String)
  | redisGetTtl (key : String)
  | redisSet (key : String) (v : Option (CV α ε)) (ttl : ℚ)
deriving DecidableEq, Repr

/-- The `metrics` record of `WriteThroughCache`. -/
structure WTMetrics where
  enabled : Bool
  localHits : Nat
  redisHits : Nat
  doubleMisses : Nat
deriving DecidableEq, Repr

/-- State of a `WriteThroughCache`: the three composed tier states and
the metrics counters. -/
structure WTState (σl σr σw : Type) where
  localCache : σl
  redisCacheForReading : σr
  redisCacheForWriting : σw
  metrics : WTMetrics

/-- `if (this.metrics.enabled) { this.metrics.localHits++; }` -/
def bumpLocalHits (m : WTMetrics) : WTMetrics :=
  if m.enabled then { m with localHits := m.localHits + 1 } else m

/-- `if (this.metrics.enabled) { this.metrics.redisHits++; }` -/
def bumpRedisHits (m : WTMetrics) : WTMetrics :=
  if m.enabled then { m with redisHits := m.redisHits + 1 } else m

/-- `if (this.metrics.enabled) { this.metrics.doubleMisses++; }` -/
def bumpDoubleMisses (m : WTMetrics) : WTMetrics :=
  if m.enabled then { m with doubleMisses := m.doubleMisses + 1 } else m

/-- `WriteThroughCache.setValue(key, value, ttl)`: write the local tier
first, then the Redis writer, and report `redisResult && localResult`. -/
def WriteThroughCache.setValue {σl σr σw α ε : Type}
    (L : TierOps σl α ε) (W : TierOps σw α ε) (s : WTState σl σr σw)
    (key : String) (value : Option (CV α ε)) (ttl : ℚ) :
    Bool × WTState σl σr σw × List (WTEvent α ε) :=
  let lres := L.setValue s.localCache key value ttl
  let wres := W.setValue s.redisCacheForWriting key value ttl
  (wres.1 && lres.1,
   { s with localCache := lres.2, redisCacheForWriting := wres.2 },
   [.localSet key value ttl, .redisSet key value ttl])

/-- `WriteThroughCache.getValue(key)`: return the local value when
present (bumping `localHits`); otherwise read the remote value from the
reader handle and the remaining TTL from the writer handle
(`Promise.all`), and when both are present promote the value into the
local tier with TTL `ttl / 1000` seconds (the remote TTL is in
milliseconds) before returning it; otherwise return the remote value
(which is the absence sentinel on a double miss). -/
def WriteThroughCache.getValue {σl σr σw α ε : Type}
    (L : TierOps σl α ε) (R : TierOps σr α ε) (W : TierOps σw α ε)
    (s : WTState σl σr σw) (key : String) :
    Option (CV α ε) × WTState σl σr σw × List (WTEvent α ε) :=
  let lres := L.getValue s.localCache key
  match lres.1 with
  | some v =>
    (some v,
     { s with localCache := lres.2, metrics := bumpLocalHits s.metrics },
     [.localGet key])
  | none =>
    let rres := R.getValue s.redisCacheForReading key
    let tres := W.getTtl s.redisCacheForWriting key
    match rres.1, tres.1 with
    | some rv, some t =>
      let pres := L.setValue lres.2 key (some rv) (t / 1000)
      (some rv,
       { s with localCache := pres.2, redisCacheForReading := rres.2,
                redisCacheForWriting := tres.2,
                metrics := bumpRedisHits s.metrics },
       [.localGet key, .redisGet key, .redisGetTtl key,
        .localSet key (some rv) (t / 1000)])
    | _, _ =>
      (rres.1,
       { s with localCache := lres.2, redisCacheForReading := rres.2,
                redisCacheForWriting := tres.2,
                metrics := bumpDoubleMisses s.metrics },
       [.localGet key, .redisGet key, .redisGetTtl key])

/-! ### The local tier (`src/lib/LocalCache.ts`)

The LRU store of the `lru-cache` dependency is modelled as an
association list with one binding per key; an entry keeps its value and
its max age in milliseconds (`none` when `ttl = 0`, i.e. no
expiration).  Capacity eviction is internal to the library and not
modelled; none of the claims depends on it. -/

/-- One JS-dictionary binding update: at most one binding per key. -/
def dictInsert {β : Type} (k : String) (v : β) (d : List (String × β)) :
    List (String × β) :=
  (k, v) :: d.filter (fun e => e.1 != k)

/-- A local LRU store: key, value, optional max age in milliseconds. -/
abbrev LocalStore (α ε : Type) := List (String × CV α ε × Option ℚ)

/-- `LocalCache.setValue(key, value, ttl)`: setting `undefined` warns
and returns `false`; `ttl = 0` stores without expiration, otherwise the
entry's max age is `ttl * 1000` ms.  Returns `true` on success. -/
def LocalCache.setValue {α ε : Type} (store : LocalStore α ε)
    (key : String) (value : Option (CV α ε)) (ttl : ℚ) :
    Bool × LocalStore α ε :=
  match value with
  | none => (false, store)
  | some v =>
    if ttl = 0 then (true, dictInsert key (v, none) store)
    else (true, dictInsert key (v, some (ttl * 1000)) store)

/-- `LocalCache.getValue(key)`: the stored value, or `undefined`. -/
def LocalCache.getValue {α ε : Type} (store : LocalStore α ε)
    (key : String) : Option (CV α ε) :=
  (store.lookup key).map (·.1)

/-- The local tier as a `TierOps`.  (`LocalCache.getTtl` throws
`not implemented` in the source and is never called by
`WriteThroughCache`; it is modelled as an absent answer.) -/
def LocalCache.tier (α ε : Type) : TierOps (LocalStore α ε) α ε where
  getValue s k := (LocalCache.getValue s k, s)
  setValue s k v ttl := LocalCache.setValue s k v ttl
  getTtl s _ := (none, s)

/-! ### Claims about the write-through tier -/

/-- **C7** Write-through write: `setValue(key, value, ttl)` writes the
same key, value and TTL to both the local tier and the remote writer
(the trace is exactly one `localSet` followed by one `redisSet`, both
with the given key, value and TTL), and returns `true` iff both the
local write and the remote write report success. -/
theorem WriteThroughCache_setValue_both_tiers {σl σr σw α ε : Type}
    (L : TierOps σl α ε) (W : TierOps σw α ε) (s : WTState σl σr σw)
    (key : String) (value : Option (CV α ε)) (ttl : ℚ) :
    ((WriteThroughCache.setValue L W s key value ttl).1 = true ↔
      (L.setValue s.localCache key value ttl).1 = true ∧
      (W.setValue s.redisCacheForWriting key value ttl).1 = true) ∧
    (WriteThroughCache.setValue L W s key value ttl).2.2 =
      [.localSet key value ttl, .redisSet key value ttl] := by
  refine ⟨?_, rfl⟩
  simp [WriteThroughCache.setValue, Bool.and_comm]

/-- **C6** Write-through read with aligned TTL: `getValue(key)` returns
the local value when present without consulting the remote tier (the
trace is just `localGet`); on a local miss it reads the remote value
and the remote TTL, and when both are present it writes the value into
the local tier with the remote's remaining TTL converted from
milliseconds to seconds before returning it; on a double miss it
returns the absence sentinel. -/
theorem WriteThroughCache_getValue_spec {σl σr σw α ε : Type}
    (L : TierOps σl α ε) (R : TierOps σr α ε) (W : TierOps σw α ε)
    (s : WTState σl σr σw) (key : String) :
    (∀ v : CV α ε, (L.getValue s.localCache key).1 = some v →
      WriteThroughCache.getValue L R W s key =
        (some v,
         { s with localCache := (L.getValue s.localCache key).2,
                  metrics := bumpLocalHits s.metrics },
         [.localGet key])) ∧
    (∀ (rv : CV α ε) (t : ℚ),
      (L.getValue s.localCache key).1 = none →
      (R.getValue s.redisCacheForReading key).1 = some rv →
      (W.getTtl s.redisCacheForWriting key).1 = some t →
      (WriteThroughCache.getValue L R W s key).1 = some rv ∧
      (WriteThroughCache.getValue L R W s key).2.1.localCache =
        (L.setValue (L.getValue s.localCache key).2 key (some rv)
          (t / 1000)).2 ∧
      (WriteThroughCache.getValue L R W s key).2.2 =
        [.localGet key, .redisGet key, .redisGetTtl key,
         .localSet key (some rv) (t / 1000)]) ∧
    ((L.getValue s.localCache key).1 = none →
      (R.getValue s.redisCacheForReading key).1 = none →
      (WriteThroughCache.getValue L R W s key).1 = none) := by
  refine ⟨?_, ?_, ?_⟩
  · intro v hv
    simp [WriteThroughCache.getValue, hv]
  · intro rv t hl hr ht
    refine ⟨?_, ?_, ?_⟩ <;> simp [WriteThroughCache.getValue, hl, hr, ht]
  · intro hl hr
    cases ht : (W.getTtl s.redisCacheForWriting key).1 <;>
      simp [WriteThroughCache.getValue, hl, hr, ht]

/-- Witness for `WriteThroughCache_getValue_spec`: a concrete promote
path with a remote hit carrying 1500 ms of remaining TTL. -/
theorem WriteThroughCache_getValue_spec_witness :
    (WriteThroughCache.getValue (α := Nat) (ε := Nat)
        (LocalCache.tier Nat Nat)
        { getValue := fun s _ => (some (.plain 4), s),
          setValue := fun s _ _ _ => (true, s),
          getTtl := fun s _ => (none, s) : TierOps Unit Nat Nat }
        { getValue := fun s _ => (none, s),
          setValue := fun s _ _ _ => (true, s),
          getTtl := fun s _ => (some 1500, s) : TierOps Unit Nat Nat }
        { localCache := [], redisCacheForReading := (),
          redisCacheForWriting := (),
          metrics :=
            { enabled := false, localHits := 0, redisHits := 0,
              doubleMisses := 0 } }
        "k").2.2 =
      [.localGet "k", .redisGet "k", .redisGetTtl "k",
       .localSet "k" (some (.plain 4)) (3 / 2)] := by
  have h := (WriteThroughCache_getValue_spec (α := Nat) (ε := Nat)
    (LocalCache.tier Nat Nat)
    { getValue := fun s _ => (some (.plain 4), s),
      setValue := fun s _ _ _ => (true, s),
      getTtl := fun s _ => (none, s) : TierOps Unit Nat Nat }
    { getValue := fun s _ => (none, s),
      setValue := fun s _ _ _ => (true, s),
      getTtl := fun s _ => (some 1500, s) : TierOps Unit Nat Nat }
    { localCache := [], redisCacheForReading := (),
      redisCacheForWriting := (),
      metrics :=
        { enabled := false, localHits := 0, redisHits := 0,
          doubleMisses := 0 } }
    "k").2.1 (.plain 4) 1500 rfl rfl rfl
  have ht : (1500 : ℚ) / 1000 = 3 / 2 := by norm_num
  simpa [ht] using h.2.2

/-- **C10** The write-through `setValue` is not atomic across tiers and
performs no rollback: the local write happens first (the trace is
`localSet` then `redisSet`), so when the remote write reports failure
the call returns `false` while the local tier already holds the newly
written value under the requested TTL, and a subsequent local read
observes that value. -/
theorem WriteThroughCache_setValue_no_rollback {σr σw α ε : Type}
    (W : TierOps σw α ε) (s : WTState (LocalStore α ε) σr σw)
    (key : String) (v : CV α ε) (ttl : ℚ)
    (hw : (W.setValue s.redisCacheForWriting key (some v) ttl).1 = false) :
    (WriteThroughCache.setValue (LocalCache.tier α ε) W s key (some v)
        ttl).1 = false ∧
    LocalCache.getValue
        (WriteThroughCache.setValue (LocalCache.tier α ε) W s key (some v)
          ttl).2.1.localCache key = some v ∧
    (WriteThroughCache.setValue (LocalCache.tier α ε) W s key (some v)
        ttl).2.1.localCache.lookup key =
      some (v, if ttl = 0 then none else some (ttl * 1000)) ∧
    (WriteThroughCache.setValue (LocalCache.tier α ε) W s key (some v)
        ttl).2.2 =
      [.localSet key (some v) ttl, .redisSet key (some v) ttl] := by
  refine ⟨?_, ?_, ?_, rfl⟩
  · simp [WriteThroughCache.setValue, hw]
  · by_cases h0 : ttl = 0 <;>
      simp [WriteThroughCache.setValue, LocalCache.tier, LocalCache.setValue,
        LocalCache.getValue, dictInsert, h0]
  · by_cases h0 : ttl = 0 <;>
      simp [WriteThroughCache.setValue, LocalCache.tier, LocalCache.setValue,
        dictInsert, h0]

/-- Witness for `WriteThroughCache_setValue_no_rollback`: a remote
writer that always fails. -/
theorem WriteThroughCache_setValue_no_rollback_witness :
    (WriteThroughCache.setValue (α := Nat) (ε := Nat)
        (LocalCache.tier Nat Nat)
        { getValue := fun s _ => (none, s),
          setValue := fun s _ _ _ => (false, s),
          getTtl := fun s _ => (none, s) : TierOps Unit Nat Nat }
        { localCache := [], redisCacheForReading := (),
          redisCacheForWriting := (),
          metrics :=
            { enabled := false, localHits := 0, redisHits := 0,
              doubleMisses := 0 } }
        "k" (some (.plain 8)) 60).1 = false ∧
    LocalCache.getValue
        (WriteThroughCache.setValue (α := Nat) (ε := Nat)
          (LocalCache.tier Nat Nat)
          { getValue := fun s _ => (none, s),
            setValue := fun s _ _ _ => (false, s),
            getTtl := fun s _ => (none, s) : TierOps Unit Nat Nat }
          { localCache := [], redisCacheForReading := (),
            redisCacheForWriting := (),
            metrics :=
              { enabled := false, localHits := 0, redisHits := 0,
                doubleMisses := 0 } }
          "k" (some (.plain 8)) 60).2.1.localCache "k" =
      some (.plain 8) := by
  have h := WriteThroughCache_setValue_no_rollback (α := Nat) (ε := Nat)
    { getValue := fun s _ => (none, s),
      setValue := fun s _ _ _ => (false, s),
      getTtl := fun s _ => (none, s) : TierOps Unit Nat Nat }
    { localCache := [], redisCacheForReading := (),
      redisCacheForWriting := (),
      metrics :=
        { enabled := false, localHits := 0, redisHits := 0,
          doubleMisses := 0 } }
    "k" (.plain 8) 60 rfl
  exact ⟨h.1, h.2.1⟩

/-! ## JavaScript values and `CacheClient.buildCacheKey`

`src/lib/CacheClient.ts`, `buildCacheKey(propertyKey, args)`.  The
argument values are modelled by `JVal`: the JS values that occur as
cache-key arguments and as codec inputs.  Plain objects and (string
keyed) `Map`s carry their properties/entries in insertion order;
numbers are integral (every number handled by the embedded paths is
passed through or stringified, never rounded). -/

/-- A JavaScript value. -/
inductive JVal where
  | undef
  | null
  | bool (b : Bool)
  | num (n : Int)
  | str (s : String)
  /-- a plain object (`constructor.name === 'Object'`), own enumerable
  properties in insertion order -/
  | obj (fields : List (String × JVal))
  | arr (elems : List JVal)
  /-- a `Map` instance with string keys -/
  | map (entries : List (String × JVal))
  /-- a `Set` instance -/
  | set (elems : List JVal)
  /-- an `Error` instance: its (non-enumerable) `message` and its own
  enumerable properties in insertion order -/
  | errObj (message : String) (props : List (String × JVal))

mutual

/-- JS `String(x)` (the `ToString` abstract operation) on the values of
`JVal`; `Array.prototype.toString` joins with `,`, rendering `null` and
`undefined` elements as the empty string. -/
def jsToString : JVal → String
  | .undef => "undefined"
  | .null => "null"
  | .bool true => "true"
  | .bool false => "false"
  | .num n => toString n
  | .str s => s
  | .obj _ => "[object Object]"
  | .arr xs => jsJoinComma xs
  | .map _ => "[object Map]"
  | .set _ => "[object Set]"
  | .errObj msg _ => "Error: " ++ msg

/-- `Array.prototype.join(',')` as used by `ToString` on arrays. -/
def jsJoinComma : List JVal → String
  | [] => ""
  | x :: xs =>
    let sx := match x with
      | .undef => ""
      | .null => ""
      | v => jsToString v
    match xs with
    | [] => sx
    | _ => sx ++ "," ++ jsJoinComma xs

end

/-- The default-comparator sort key of an array element
(`Array.prototype.sort` with no comparator): `undefined` elements sort
after everything else, the rest compare by `String(x)`. -/
def jsSortKey : JVal → WithTop String
  | .undef => ⊤
  | v => (jsToString v : WithTop String)

/-- The default-comparator sort key of a property entry, as produced by
`Object.entries(x).sort()`: the two-element array `[key, value]`
converts to `key + "," + s` where `s` is the array-join rendering of
the value (`null`/`undefined` render empty). -/
def jsEntrySortKey (kv : String × JVal) : String :=
  kv.1 ++ "," ++
    (match kv.2 with
      | .undef => ""
      | .null => ""
      | v => jsToString v)

/-- Compare two items by a sort key into a linear order; JS's default
sort is stable, and `List.insertionSort` with this relation is the
stable sort by `key`. -/
def keyLe {α β : Type} [LinearOrder β] (key : α → β) (a b : α) : Prop :=
  key a ≤ key b

instance {α β : Type} [LinearOrder β] (key : α → β) :
    IsTotal α (keyLe key) :=
  ⟨fun a b => le_total (key a) (key b)⟩

instance {α β : Type} [LinearOrder β] (key : α → β) :
    IsTrans α (keyLe key) :=
  ⟨fun _ _ _ hab hbc => le_trans hab hbc⟩

instance {α β : Type} [LinearOrder β] (key : α → β) :
    DecidableRel (keyLe key) :=
  fun a b => inferInstanceAs (Decidable (key a ≤ key b))

/-- `Array.prototype.join(sep)` on a list of strings. -/
def joinStrings (sep : String) : List String → String
  | [] => ""
  | [x] => x
  | x :: xs => x ++ sep ++ joinStrings sep xs

/-- The filter of `buildKeyArgs`: `typeof x !== 'object'`, or a plain
object / array (`constructor.name` is `'Object'` or `'Array'`), or
`null`.  `Map`, `Set` and `Error` instances are class instances and are
dropped. -/
def keepArg : JVal → Bool
  | .map _ => false
  | .set _ => false
  | .errObj _ _ => false
  | _ => true

/-- The sort key of a precomputed array element. -/
def keyOfElem (e : WithTop String × Bool × String) : WithTop String := e.1

/-- The renderings of the elements that passed the filter, in order. -/
def keptRendered : List (WithTop String × Bool × String) → List String
  | [] => []
  | e :: rest =>
    if e.2.1 then e.2.2 :: keptRendered rest else keptRendered rest

mutual

/-- `buildKeyArgs(args)`: keep the arguments passing the filter, render
each.  (The source filters and then maps; this transcription interleaves
the two, which yields the same list.) -/
def buildKeyArgs : List JVal → List String
  | [] => []
  | x :: xs =>
    if keepArg x then renderArg x :: buildKeyArgs xs else buildKeyArgs xs

/-- Rendering of one kept argument.

* A plain (non-array, non-null) object: `JSON.stringify(x)` checks for
  circular references (total on inductive values, hence no effect
  here), then `Object.entries(x).sort()` sorts the entries with the
  default comparator — i.e. stably by their `[key, value]` string — and
  each is rendered as `name-value`; the results are joined with `-`.
  The source sorts the raw entries and then renders each; since
  rendering is per-entry, we precompute each entry's sort key and
  rendering (`renderEntries`) and sort the pairs by the same key.
* An array: `x.sort()` sorts the elements with the default comparator
  (stably by `String(elem)`, `undefined` last) and the result goes
  through `buildKeyArgs` (filter + render) and is joined with `-`.
  Again sort keys, filter verdicts and renderings are precomputed per
  element (`renderElems`) before the stable sort.
* Everything else: `new String(x).valueOf()`. -/
def renderArg : JVal → String
  | .obj fields =>
    joinStrings "-"
      ((List.insertionSort (keyLe Prod.fst) (renderEntries fields)).map
        Prod.snd)
  | .arr elems =>
    joinStrings "-"
      (keptRendered (List.insertionSort (keyLe keyOfElem)
        (renderElems elems)))
  | x => jsToString x

/-- Each property entry's default-comparator sort key together with its
`name-value` rendering: an object-typed value renders as
`` `${key}-${buildKeyArgs([value])}` `` (the one-element list collapses
to its rendering, or to the empty string when the value is filtered
out), any other value as `` `${key}-${value}` ``. -/
def renderEntries : List (String × JVal) → List (String × String)
  | [] => []
  | (k, v) :: rest =>
    (jsEntrySortKey (k, v),
      match v with
      | .null | .obj _ | .arr _ | .map _ | .set _ | .errObj _ _ =>
        k ++ "-" ++
          joinStrings "," (if keepArg v then [renderArg v] else [])
      | _ => k ++ "-" ++ jsToString v) :: renderEntries rest

/-- Each array element's default-comparator sort key, filter verdict
and rendering. -/
def renderElems : List JVal → List (WithTop String × Bool × String)
  | [] => []
  | x :: xs => (jsSortKey x, keepArg x, renderArg x) :: renderElems xs

end

/-- Failure of `buildCacheKey`. -/
inductive KeyError where
  | tooLong (maxLen : Nat)
deriving DecidableEq, Repr

/-- `CacheClient.buildCacheKey(propertyKey, args)`: the property name
followed by the rendered arguments, joined with `-`;
throws when the built key exceeds the maximum length (1000 with
`UNITO_CACHE_MAX_KEY_LENGTH` unset). -/
def buildCacheKey (propertyKey : String) (args : List JVal) :
    Except KeyError String :=
  let builtKey := joinStrings "-" (propertyKey :: buildKeyArgs args)
  let maxKeyLength := 1000
  if builtKey.length > maxKeyLength then .error (.tooLong maxKeyLength)
  else .ok builtKey

/-! ### Claims about `buildCacheKey`

JS's default sort is stable and compares by each element's string
rendering, so two entries/elements whose renderings collide keep their
input order: permuting them permutes the built key.  The claim's
order-insensitivity therefore only holds when the sort keys are
pairwise distinct. -/

/-- `renderEntries` is element-wise, so it maps permutations to
permutations. -/
theorem renderEntries_perm {l₁ l₂ : List (String × JVal)}
    (h : l₁.Perm l₂) :
    (renderEntries l₁).Perm (renderEntries l₂) := by
  induction h with
  | nil => simp [renderEntries]
  | cons x _ ih =>
    obtain ⟨k, v⟩ := x
    simp only [renderEntries]
    exact .cons _ ih
  | swap x y l =>
    obtain ⟨k₁, v₁⟩ := x
    obtain ⟨k₂, v₂⟩ := y
    simp only [renderEntries]
    exact List.Perm.swap _ _ _
  | trans _ _ ih₁ ih₂ => exact ih₁.trans ih₂

/-- `renderElems` is element-wise, so it maps permutations to
permutations. -/
theorem renderElems_perm {l₁ l₂ : List JVal} (h : l₁.Perm l₂) :
    (renderElems l₁).Perm (renderElems l₂) := by
  induction h with
  | nil => simp [renderElems]
  | cons x _ ih =>
    simp only [renderElems]
    exact .cons _ ih
  | swap x y l =>
    simp only [renderElems]
    exact List.Perm.swap _ _ _
  | trans _ _ ih₁ ih₂ => exact ih₁.trans ih₂

/-- Two lists that are permutations of one another, are both sorted by
a sort key, and have pairwise-distinct sort keys, are equal. -/
theorem eq_of_perm_of_sorted_of_nodup_keys {α β : Type} [LinearOrder β]
    (key : α → β) :
    ∀ {l₁ l₂ : List α}, l₁.Perm l₂ → l₁.Sorted (keyLe key) →
      l₂.Sorted (keyLe key) → (l₁.map key).Nodup → l₁ = l₂ := by
  intro l₁
  induction l₁ with
  | nil =>
    intro l₂ hp _ _ _
    exact hp.nil_eq
  | cons x xs ih =>
    intro l₂ hp hs₁ hs₂ hnd
    cases l₂ with
    | nil => exact absurd hp.symm.nil_eq (by simp)
    | cons y ys =>
      obtain ⟨hx₁, hs₁'⟩ := List.sorted_cons.mp hs₁
      obtain ⟨hy₂, hs₂'⟩ := List.sorted_cons.mp hs₂
      have hnd' : key x ∉ xs.map key ∧ (xs.map key).Nodup := by
        rw [List.map_cons] at hnd
        exact List.nodup_cons.mp hnd
      obtain ⟨hxk, hndtail⟩ := hnd' 
      have hxy : x = y := by
        by_contra hne
        have hx2 : x ∈ y :: ys := hp.mem_iff.mp (List.mem_cons_self x xs)
        have hy1 : y ∈ x :: xs := hp.symm.mem_iff.mp (List.mem_cons_self y ys)
        have hxys : x ∈ ys := by
          rcases List.mem_cons.mp hx2 with h | h
          · exact absurd h hne
          · exact h
        have hyxs : y ∈ xs := by
          rcases List.mem_cons.mp hy1 with h | h
          · exact absurd h.symm hne
          · exact h
        have h₁ : keyLe key x y := hx₁ y hyxs
        have h₂ : keyLe key y x := hy₂ x hxys
        have hk : key x = key y := le_antisymm h₁ h₂
        exact hxk (hk ▸ List.mem_map_of_mem key hyxs)
      subst hxy
      have htail := ih hp.cons_inv hs₁' hs₂' hndtail
      rw [htail]

/-- A stable sort of two permuted lists agrees when the sort keys are
pairwise distinct. -/
theorem insertionSort_eq_of_perm_of_nodup_keys {α β : Type}
    [LinearOrder β] (key : α → β) {l₁ l₂ : List α} (hp : l₁.Perm l₂)
    (hnd : (l₁.map key).Nodup) :
    List.insertionSort (keyLe key) l₁ =
      List.insertionSort (keyLe key) l₂ := by
  apply eq_of_perm_of_sorted_of_nodup_keys key
  · exact (List.perm_insertionSort _ l₁).trans
      (hp.trans (List.perm_insertionSort _ l₂).symm)
  · exact List.sorted_insertionSort _ l₁
  · exact List.sorted_insertionSort _ l₂
  · exact (((List.perm_insertionSort (keyLe key) l₁).map key).nodup_iff).mpr
      hnd

/-- `buildKeyArgs` distributes over append. -/
theorem buildKeyArgs_append (l₁ l₂ : List JVal) :
    buildKeyArgs (l₁ ++ l₂) = buildKeyArgs l₁ ++ buildKeyArgs l₂ := by
  induction l₁ with
  | nil => simp [buildKeyArgs]
  | cons x xs ih =>
    by_cases h : keepArg x = true <;> simp [buildKeyArgs, h, ih]

/-- Replacing one argument with one that renders and filters the same
leaves the built key unchanged. -/
theorem buildCacheKey_replace (p : String) (pre post : List JVal)
    (x₁ x₂ : JVal) (hk : keepArg x₁ = keepArg x₂)
    (hr : renderArg x₁ = renderArg x₂) :
    buildCacheKey p (pre ++ [x₁] ++ post) =
      buildCacheKey p (pre ++ [x₂] ++ post) := by
  have h1 : buildKeyArgs [x₁] = buildKeyArgs [x₂] := by
    simp only [buildKeyArgs, hk, hr]
  unfold buildCacheKey
  rw [buildKeyArgs_append, buildKeyArgs_append, buildKeyArgs_append,
    buildKeyArgs_append, h1]

/-- **C8 (counterexample)** `buildCacheKey` is *not* insensitive to the
element order of a sequence argument: the two plain-record elements
below both stringify to `[object Object]`, so the default sort (which
is stable) leaves them in input order, and permuting them changes the
key. -/
theorem buildCacheKey_order_counterexample :
    ([JVal.obj [("a", .num 1)], JVal.obj [("b", .num 2)]].Perm
      [JVal.obj [("b", .num 2)], JVal.obj [("a", .num 1)]]) ∧
    buildCacheKey "f" [.arr [.obj [("a", .num 1)], .obj [("b", .num 2)]]] =
      .ok "f-a-1-b-2" ∧
    buildCacheKey "f" [.arr [.obj [("b", .num 2)], .obj [("a", .num 1)]]] =
      .ok "f-b-2-a-1" ∧
    buildCacheKey "f" [.arr [.obj [("a", .num 1)], .obj [("b", .num 2)]]] ≠
      buildCacheKey "f" [.arr [.obj [("b", .num 2)], .obj [("a", .num 1)]]] := by
  refine ⟨List.Perm.swap _ _ _, ?_, ?_, ?_⟩ <;>
    simp +decide [buildCacheKey, buildKeyArgs, renderArg, renderEntries,
      renderElems, keptRendered, keyOfElem, jsEntrySortKey, jsToString,
      jsSortKey, keyLe, keepArg, joinStrings, List.insertionSort,
      List.orderedInsert]

/-- **C8 (amended)** `buildCacheKey` is deterministic (it is a
function: equal inputs give equal keys), and it is order-insensitive
for record-shaped and sequence arguments *whose entries/elements have
pairwise-distinct default-comparator sort keys*: permuting the property
order of such a record argument, or the element order of such a
sequence argument, does not change the resulting key.  (Without the
distinctness proviso the stable sort preserves the input order of tied
entries, and `buildCacheKey_order_counterexample` shows the key can
change.) -/
theorem buildCacheKey_deterministic_order_insensitive
    (propertyKey : String) (pre post : List JVal) :
    (∀ args, buildCacheKey propertyKey args = buildCacheKey propertyKey args) ∧
    (∀ f₁ f₂ : List (String × JVal), f₁.Perm f₂ →
      ((renderEntries f₁).map Prod.fst).Nodup →
      buildCacheKey propertyKey (pre ++ [.obj f₁] ++ post) =
        buildCacheKey propertyKey (pre ++ [.obj f₂] ++ post)) ∧
    (∀ e₁ e₂ : List JVal, e₁.Perm e₂ →
      ((renderElems e₁).map keyOfElem).Nodup →
      buildCacheKey propertyKey (pre ++ [.arr e₁] ++ post) =
        buildCacheKey propertyKey (pre ++ [.arr e₂] ++ post)) := by
  refine ⟨fun _ => rfl, ?_, ?_⟩
  · intro f₁ f₂ hperm hnd
    refine buildCacheKey_replace _ _ _ _ _ ?_ ?_
    · rfl
    · have hsort := insertionSort_eq_of_perm_of_nodup_keys Prod.fst
        (renderEntries_perm hperm) hnd
      simp only [renderArg, hsort]
  · intro e₁ e₂ hperm hnd
    refine buildCacheKey_replace _ _ _ _ _ ?_ ?_
    · rfl
    · have hsort := insertionSort_eq_of_perm_of_nodup_keys keyOfElem
        (renderElems_perm hperm) hnd
      simp only [renderArg, hsort]

/-- Witness for `buildCacheKey_deterministic_order_insensitive`:
permuting the properties of the record argument
`\x7b a: 1, b: 2 \x7d` leaves the key unchanged. -/
theorem buildCacheKey_order_insensitive_witness :
    buildCacheKey "f" [.obj [("a", .num 1), ("b", .num 2)]] =
      buildCacheKey "f" [.obj [("b", .num 2), ("a", .num 1)]] :=
  (buildCacheKey_deterministic_order_insensitive "f" [] []).2.1
    [("a", .num 1), ("b", .num 2)] [("b", .num 2), ("a", .num 1)]
    (List.Perm.swap _ _ _)
    (by simp +decide [renderEntries, jsEntrySortKey, jsToString, keepArg,
      renderArg, joinStrings])

/-! ## Value codec (`RedisCache.serializeValue` / `deserializeValue`)

`src/lib/RedisCache.ts`.  The codec turns a `CachableValue` into
something Redis can store: sentinels for `null` and the booleans, a
prefixed JSON body for `Error` instances and for other objects, and the
value itself for strings and numbers.  `JSON.stringify` / `JSON.parse`
are JS builtins; they are modelled below by an executable printer and
parser over `JVal`.  Recursion over `JVal` is driven by a fuel
parameter (bounded by `sizeOf`, which exceeds the total number of
nodes), keeping every definition reducible. -/

/-- `RedisCache.NULL_VALUE`. -/
def NULL_VALUE : String := "f405eed4-507c-4aa5-a6d2-c1813d584b8f-NULL"

/-- `RedisCache.TRUE_VALUE`. -/
def TRUE_VALUE : String := "f405eed4-507c-4aa5-a6d2-c1813d584b8f-TRUE"

/-- `RedisCache.FALSE_VALUE`. -/
def FALSE_VALUE : String := "f405eed4-507c-4aa5-a6d2-c1813d584b8f-FALSE"

/-- The source names this constant `JSON_` followed by `PREFIX`. -/
def JSON_MARK : String := "f405eed4-507c-4aa5-a6d2-c1813d584b8f-JSON"

/-- The source names this constant `ERROR_` followed by `PREFIX`. -/
def ERROR_MARK : String := "f405eed4-507c-4aa5-a6d2-c1813d584b8f-ERROR"

/-- An opening brace, as a string. -/
def lbrace : String := "\x7b"

/-- A closing brace, as a string. -/
def rbrace : String := "\x7d"

/-- A lowercase hexadecimal digit. -/
def hexDigitChar (n : Nat) : Char :=
  if n < 10 then Char.ofNat (48 + n) else Char.ofNat (87 + n)

/-- JSON string escaping of one character, as `JSON.stringify` does it:
quote, backslash and the common control characters get two-character
escapes, other control characters a `\u00xx` escape, everything else is
itself. -/
def jsonEscapeChar (c : Char) : String :=
  if c = '"' then "\\\""
  else if c = '\\' then "\\\\"
  else if c = '\n' then "\\n"
  else if c = '\t' then "\\t"
  else if c = '\r' then "\\r"
  else if c.toNat < 32 then
    "\\u00" ++
      String.mk [hexDigitChar (c.toNat / 16), hexDigitChar (c.toNat % 16)]
  else String.singleton c

/-- A JSON string literal: quoted and escaped. -/
def jsonQuote (s : String) : String :=
  "\"" ++ String.join (s.toList.map jsonEscapeChar) ++ "\""

mutual

/-- `JSON.stringify` on a value in value position.  `undefined` is only
reachable here as an array element (it stringifies to `null` there;
object properties with `undefined` values are skipped by
`jstrFieldItems`, and the callers handle top-level `undefined`).  A
`Map` or `Set` has no own enumerable properties, so it stringifies to
an empty object body; an `Error` stringifies to its own enumerable
properties (its `message` is not enumerable).  Integral numbers print
exactly. -/
def jstrF : Nat → JVal → String
  | 0, _ => ""
  | fuel+1, v =>
    match v with
    | .undef => "null"
    | .null => "null"
    | .bool true => "true"
    | .bool false => "false"
    | .num n => toString n
    | .str s => jsonQuote s
    | .obj fields =>
      lbrace ++ joinStrings "," (jstrFieldItems fuel fields) ++ rbrace
    | .arr elems =>
      "[" ++ joinStrings "," (jstrElemItems fuel elems) ++ "]"
    | .map _ => lbrace ++ rbrace
    | .set _ => lbrace ++ rbrace
    | .errObj _ props =>
      lbrace ++ joinStrings "," (jstrFieldItems fuel props) ++ rbrace

/-- The `"key":value` items of an object body; properties with
`undefined` values are omitted. -/
def jstrFieldItems : Nat → List (String × JVal) → List String
  | 0, _ => []
  | _+1, [] => []
  | fuel+1, (_, .undef) :: rest => jstrFieldItems fuel rest
  | fuel+1, (k, w) :: rest =>
    (jsonQuote k ++ ":" ++ jstrF fuel w) :: jstrFieldItems fuel rest

/-- The items of an array body. -/
def jstrElemItems : Nat → List JVal → List String
  | 0, _ => []
  | _+1, [] => []
  | fuel+1, v :: rest => jstrF fuel v :: jstrElemItems fuel rest

end

mutual

/-- The total node count of a value: every constructor and every list
cell counts one.  It bounds the fuel `jstrF` consumes. -/
def jvalSize : JVal → Nat
  | .obj fields => 1 + jpairsSize fields
  | .arr elems => 1 + jlistSize elems
  | .map entries => 1 + jpairsSize entries
  | .set elems => 1 + jlistSize elems
  | .errObj _ props => 1 + jpairsSize props
  | _ => 1

/-- Node count of a property list. -/
def jpairsSize : List (String × JVal) → Nat
  | [] => 1
  | (_, v) :: rest => 1 + jvalSize v + jpairsSize rest

/-- Node count of an element list. -/
def jlistSize : List JVal → Nat
  | [] => 1
  | v :: rest => 1 + jvalSize v + jlistSize rest

end

/-- `JSON.stringify` of a defined value.  `jvalSize v` bounds the total
number of nodes, hence the fuel consumed. -/
def jsonStringify (v : JVal) : String := jstrF (jvalSize v) v

/-- JSON whitespace. -/
def isJsonWs (c : Char) : Bool :=
  (c = ' ') || (c = '\n') || (c = '\t') || (c = '\r')

/-- Skip JSON whitespace. -/
def skipJsonWs : List Char → List Char
  | [] => []
  | c :: cs => if isJsonWs c then skipJsonWs cs else c :: cs

/-- The value of one hexadecimal digit. -/
def hexVal? (c : Char) : Option Nat :=
  if c.isDigit then some (c.toNat - 48)
  else if 'a' ≤ c ∧ c ≤ 'f' then some (c.toNat - 87)
  else if 'A' ≤ c ∧ c ≤ 'F' then some (c.toNat - 55)
  else none

/-- Parse the body of a JSON string literal (after the opening quote)
up to and past the closing quote, decoding escapes. -/
def parseJsonStringBody : Nat → List Char → Option (List Char × List Char)
  | 0, _ => none
  | fuel+1, cs =>
    match cs with
    | [] => none
    | c :: rest =>
      if c = '"' then some ([], rest)
      else if c = '\\' then
        match rest with
        | [] => none
        | e :: rest₂ =>
          let dec : Option (Char × List Char) :=
            if e = '"' then some ('"', rest₂)
            else if e = '\\' then some ('\\', rest₂)
            else if e = '/' then some ('/', rest₂)
            else if e = 'n' then some ('\n', rest₂)
            else if e = 't' then some ('\t', rest₂)
            else if e = 'r' then some ('\r', rest₂)
            else if e = 'b' then some (Char.ofNat 8, rest₂)
            else if e = 'f' then some (Char.ofNat 12, rest₂)
            else if e = 'u' then
              match rest₂ with
              | d₁ :: d₂ :: d₃ :: d₄ :: rest₃ =>
                match hexVal? d₁, hexVal? d₂, hexVal? d₃, hexVal? d₄ with
                | some a, some b, some c₂, some d =>
                  some (Char.ofNat (((a * 16 + b) * 16 + c₂) * 16 + d),
                    rest₃)
                | _, _, _, _ => none
              | _ => none
            else none
          match dec with
          | some (ch, rest') =>
            (parseJsonStringBody fuel rest').map
              (fun p => (ch :: p.1, p.2))
          | none => none
      else
        (parseJsonStringBody fuel rest).map (fun p => (c :: p.1, p.2))

/-- Parse a run of decimal digits into an accumulator. -/
def parseDigits : Nat → List Char → Nat → Option (Nat × List Char)
  | 0, _, _ => none
  | fuel+1, cs, acc =>
    match cs with
    | [] => some (acc, [])
    | c :: rest =>
      if c.isDigit then parseDigits fuel rest (acc * 10 + (c.toNat - 48))
      else some (acc, cs)

/-- Parse a JSON number.  Only integral numbers are modelled: the
codec's own outputs are integral and so are the inputs of the theorems
below (fraction/exponent syntax is out of the model). -/
def parseJsonNumber (fuel : Nat) (cs : List Char) :
    Option (Int × List Char) :=
  match cs with
  | '-' :: rest =>
    match rest with
    | c :: _ =>
      if c.isDigit then
        (parseDigits fuel rest 0).map (fun p => (-(p.1 : Int), p.2))
      else none
    | [] => none
  | c :: _ =>
    if c.isDigit then
      (parseDigits fuel cs 0).map (fun p => ((p.1 : Int), p.2))
    else none
  | [] => none

mutual

/-- Parse one JSON value. -/
def parseJsonVal : Nat → List Char → Option (JVal × List Char)
  | 0, _ => none
  | fuel+1, cs₀ =>
    match skipJsonWs cs₀ with
    | [] => none
    | c :: rest =>
      if c = 'n' then
        match rest with
        | 'u' :: 'l' :: 'l' :: r => some (.null, r)
        | _ => none
      else if c = 't' then
        match rest with
        | 'r' :: 'u' :: 'e' :: r => some (.bool true, r)
        | _ => none
      else if c = 'f' then
        match rest with
        | 'a' :: 'l' :: 's' :: 'e' :: r => some (.bool false, r)
        | _ => none
      else if c = '"' then
        (parseJsonStringBody (fuel+1) rest).map
          (fun p => (.str (String.mk p.1), p.2))
      else if c = '[' then
        match skipJsonWs rest with
        | ']' :: r₂ => some (.arr [], r₂)
        | r₁ => (parseJsonArrayRest fuel r₁).map (fun p => (.arr p.1, p.2))
      else if c = Char.ofNat 123 then
        match skipJsonWs rest with
        | c₂ :: r₂ =>
          if c₂ = Char.ofNat 125 then some (.obj [], r₂)
          else
            (parseJsonMembersRest fuel (c₂ :: r₂)).map
              (fun p => (.obj p.1, p.2))
        | [] => none
      else (parseJsonNumber (fuel+1) (c :: rest)).map
        (fun p => (.num p.1, p.2))

/-- Parse the elements of a non-empty JSON array up to `]`. -/
def parseJsonArrayRest : Nat → List Char → Option (List JVal × List Char)
  | 0, _ => none
  | fuel+1, cs =>
    match parseJsonVal fuel cs with
    | none => none
    | some (v, r) =>
      match skipJsonWs r with
      | ',' :: r₂ =>
        (parseJsonArrayRest fuel r₂).map (fun p => (v :: p.1, p.2))
      | ']' :: r₂ => some ([v], r₂)
      | _ => none

/-- Parse the members of a non-empty JSON object up to the closing
brace. -/
def parseJsonMembersRest :
    Nat → List Char → Option (List (String × JVal) × List Char)
  | 0, _ => none
  | fuel+1, cs =>
    match cs with
    | '"' :: r₁ =>
      match parseJsonStringBody (fuel+1) r₁ with
      | none => none
      | some (kchars, r₂) =>
        match skipJsonWs r₂ with
        | ':' :: r₃ =>
          match parseJsonVal fuel r₃ with
          | none => none
          | some (v, r₄) =>
            match skipJsonWs r₄ with
            | ',' :: r₅ =>
              (parseJsonMembersRest fuel (skipJsonWs r₅)).map
                (fun p => ((String.mk kchars, v) :: p.1, p.2))
            | c :: r₅ =>
              if c = Char.ofNat 125 then
                some ([(String.mk kchars, v)], r₅)
              else none
            | [] => none
        | _ => none
    | _ => none

end

/-- `JSON.parse`: parse one value and require only whitespace after it;
`none` models a thrown `SyntaxError`. -/
def jsonParse (s : String) : Option JVal :=
  match parseJsonVal (2 * s.length + 2) s.toList with
  | some (v, r) =>
    match skipJsonWs r with
    | [] => some v
    | _ => none
  | none => none

/-- `String.prototype.startsWith`, on the character lists. -/
def strStartsWith (s mark : String) : Bool :=
  mark.toList.isPrefixOf s.toList

/-- The object spread `\x7b ...value, message: value.message \x7d` used
when serializing an `Error`: the own enumerable properties, with
`message` updated in place when already present and appended
otherwise. -/
def spreadWithMessage (props : List (String × JVal)) (msg : String) :
    List (String × JVal) :=
  if props.any (fun kv => kv.1 == "message") then
    props.map (fun kv =>
      if kv.1 == "message" then (kv.1, JVal.str msg) else kv)
  else props ++ [("message", JVal.str msg)]

/-- `RedisCache.serializeValue(value)`: `null` and the booleans become
their sentinels; an `Error` instance becomes the error mark followed by
`JSON.stringify(\x7b ...value, message: value.message \x7d)`; any other
object becomes the JSON mark followed by `JSON.stringify(value)`;
strings, numbers and `undefined` are returned unchanged. -/
def serializeValue : JVal → JVal
  | .null => .str NULL_VALUE
  | .bool true => .str TRUE_VALUE
  | .bool false => .str FALSE_VALUE
  | .errObj msg props =>
    .str (ERROR_MARK ++ jsonStringify (.obj (spreadWithMessage props msg)))
  | .obj fields => .str (JSON_MARK ++ jsonStringify (.obj fields))
  | .arr elems => .str (JSON_MARK ++ jsonStringify (.arr elems))
  | .map entries => .str (JSON_MARK ++ jsonStringify (.map entries))
  | .set elems => .str (JSON_MARK ++ jsonStringify (.set elems))
  | v => v

/-- An error thrown while running `deserializeValue`: calling
`.startsWith` on a non-string value (`TypeError`), or a `JSON.parse`
failure (`SyntaxError`). -/
inductive JsNativeError where
  | typeError
  | syntaxError
deriving DecidableEq, Repr

/-- `deserializedError.message` coerced as `new Error(message)` does:
a missing property yields the empty message. -/
def errMessageOf (fields : List (String × JVal)) : String :=
  match fields.lookup "message" with
  | some (.str m) => m
  | some v => jsToString v
  | none => ""

/-- `RedisCache.deserializeValue(value)`: a `null` reply (missing key)
becomes `undefined`; the sentinels decode to `null`/`true`/`false`; an
error-marked string is JSON-parsed and rebuilt as
`Object.assign(new Error(message), parsed)` (so `message` and all
parsed properties are carried, and `message` is own-enumerable after
the trip); a JSON-marked string is JSON-parsed; any other string is
returned as is.  A non-string, non-`null` value reaches
`value.startsWith(...)` and throws a `TypeError`.
(`Object.assign` onto an `Error` with a non-object parse result copies
nothing; that corner is modelled as an empty error.) -/
def deserializeValue : JVal → Except JsNativeError JVal
  | .null => .ok .undef
  | .str s =>
    if s = NULL_VALUE then .ok .null
    else if s = TRUE_VALUE then .ok (.bool true)
    else if s = FALSE_VALUE then .ok (.bool false)
    else if strStartsWith s ERROR_MARK then
      match jsonParse (s.drop ERROR_MARK.length) with
      | some (.obj fields) => .ok (.errObj (errMessageOf fields) fields)
      | some _ => .ok (.errObj "" [])
      | none => .error .syntaxError
    else if strStartsWith s JSON_MARK then
      match jsonParse (s.drop JSON_MARK.length) with
      | some v => .ok v
      | none => .error .syntaxError
    else .ok (.str s)
  | _ => .error .typeError

set_option maxRecDepth 8000 in
/-- **C5** The codec round-trip, evaluated on the values the claim
names.  `null`, the booleans, strings, nested records and error objects
(message and custom enumerable properties included) do round-trip; but
a record containing a keyed-map member and a set member does **not**:
`JSON.stringify` renders a `Map`/`Set` as an empty object body (they
have no own enumerable properties), so both members come back as empty
plain records — neither the type nor the contents survive, although
the repository's own tests assert deep equality with the maps and sets
preserved.  A number does not survive the direct round-trip either:
`serializeValue` passes it through unchanged and
`deserializeValue(number)` calls `.startsWith` on it, a `TypeError`. -/
theorem serializeValue_roundTrip_map_set_bug :
    deserializeValue (serializeValue .null) = .ok .null ∧
    deserializeValue (serializeValue (.bool true)) = .ok (.bool true) ∧
    deserializeValue (serializeValue (.bool false)) = .ok (.bool false) ∧
    deserializeValue (serializeValue (.str "string")) =
      .ok (.str "string") ∧
    deserializeValue (serializeValue
        (.obj [("level1", .obj [("level2", .obj [("level3",
          .bool true)])])])) =
      .ok (.obj [("level1", .obj [("level2", .obj [("level3",
        .bool true)])])]) ∧
    deserializeValue (serializeValue (.errObj "nope 1"
        [("name", .str "MyError"), ("myStringProperty", .str "present")])) =
      .ok (.errObj "nope 1"
        [("name", .str "MyError"), ("myStringProperty", .str "present"),
         ("message", .str "nope 1")]) ∧
    deserializeValue (serializeValue
        (.obj [("m", .map [("key1", .num 1)]), ("s", .set [.str "key1"])])) =
      .ok (.obj [("m", .obj []), ("s", .obj [])]) ∧
    deserializeValue (serializeValue
        (.obj [("m", .map [("key1", .num 1)]), ("s", .set [.str "key1"])])) ≠
      .ok (.obj [("m", .map [("key1", .num 1)]), ("s", .set [.str "key1"])]) ∧
    deserializeValue (serializeValue (.num 0)) = .error .typeError := by
  refine ⟨rfl, rfl, rfl, rfl, ?_, ?_, ?_, ?_, rfl⟩
  · simp only [serializeValue, jsonStringify, jvalSize, jpairsSize,
      jlistSize]
    norm_num
    rfl
  · simp only [serializeValue, jsonStringify, jvalSize, jpairsSize,
      jlistSize, spreadWithMessage]
    norm_num
    rfl
  · simp only [serializeValue, jsonStringify, jvalSize, jpairsSize,
      jlistSize]
    norm_num
    rfl
  · have h : deserializeValue (serializeValue
        (.obj [("m", .map [("key1", .num 1)]), ("s", .set [.str "key1"])])) =
        .ok (.obj [("m", .obj []), ("s", .obj [])]) := by
      simp only [serializeValue, jsonStringify, jvalSize, jpairsSize,
        jlistSize]
      norm_num
      rfl
    rw [h]
    simp

/-! ## Small-step machine for the in-process single-flight coordinator

`CacheInstance.getOrFetchValue` runs on a cooperative single-threaded
event loop: code between two `await`s is atomic, interleaving happens
only at suspension points.  The machine below has one thread per
in-flight `getOrFetchValue` call; each step either resumes one thread
at its suspension point and runs it to the next one, settles a compute
promise, spawns a new call, or mutates the cache externally.  The
`activeFetches` JS dictionary is an association list with
one-binding-per-key updates (`dictInsert`), and `delete` is
`dictErase`.  The tier is the in-process `LocalCache`, whose
`getValue`/`setValue` act on the in-memory map at the step that resumes
the awaiting thread.  `computeLog` records one entry `(key, fid)` for
every invocation of a compute function — the source invokes the
compute function exactly where it installs the future
(`this.activeFetches[key] = fetchFunction()`), minting the fresh future
id `fid`. -/

/-- `delete d[k]` on a JS dictionary. -/
def dictErase {β : Type} (k : String) (d : List (String × β)) :
    List (String × β) :=
  d.filter (fun e => e.1 != k)

/-- The value written on settlement, per the caching policy of lines
193-198: a rejection is written as the error iff `shouldCacheError` was
supplied and holds of it; a non-`undefined` resolution is written;
nothing otherwise. -/
def cacheDecision {α ε : Type} (r : FetchResult α ε)
    (sce : Option (ε → Bool)) : Option (CV α ε) :=
  match r with
  | .threw e =>
    match sce with
    | some p => if p e then some (.err e) else none
    | none => none
  | .ok (some v) => some v
  | .ok none => none

/-- Program counter of one `getOrFetchValue` call: where the thread is
suspended.  `fid` identifies the fetch promise the thread installed or
attached to; `joined` in the terminal states records which fetch (if
any) produced the outcome. -/
inductive TPC (α ε : Type) where
  /-- suspended in the first `await this.getValue(key)` -/
  | atGet1
  /-- returned `currentFetch` (the in-flight attach): awaiting the
  settlement of fetch `fid` -/
  | waiting (fid : Nat)
  /-- suspended in `await this.lock(lockName, lockTtl * 1000)` -/
  | awaitLock
  /-- suspended in the second-check `await this.getValue(key)` -/
  | awaitGet2
  /-- installed fetch `fid`; suspended in `await fetchPromise` -/
  | ownerAwait (fid : Nat) (locked : Bool)
  /-- suspended in `await this.setValue(key, v, ttl)` after fetch `fid`
  settled with outcome `out` (the write itself landed when `setValue`
  was called) -/
  | awaitSet (fid : Nat) (locked : Bool) (v : CV α ε) (out : GoFOutcome α ε)
  /-- past `delete this.activeFetches[key]`, suspended in
  `await this.unlock(lock)` -/
  | awaitUnlock (joined : Option Nat) (out : GoFOutcome α ε)
  /-- the call returned or threw `out` -/
  | done (joined : Option Nat) (out : GoFOutcome α ε)

/-- One `getOrFetchValue` call: its arguments and program counter. -/
structure MThread (α ε : Type) where
  key : String
  ttl : Nat
  lockTtl : Nat
  sce : Option (ε → Bool)
  pc : TPC α ε

/-- The per-process state: the local tier's map, the `activeFetches`
table, the mint for fetch-promise ids, the settlements so far, the
compute-invocation log, and the threads. -/
structure MState (α ε : Type) where
  cache : String → Option (CV α ε)
  activeFetches : List (String × Nat)
  nextId : Nat
  settled : Nat → Option (FetchResult α ε)
  computeLog : List (String × Nat)
  threads : List (MThread α ε)

/-- The state of the `finally` block after `delete
this.activeFetches[key]`: release the lock when one is held, otherwise
the call completes. -/
def afterDelete {α ε : Type} (locked : Bool) (joined : Option Nat)
    (out : GoFOutcome α ε) : TPC α ε :=
  if locked then .awaitUnlock joined out else .done joined out

/-- One step of the machine; `ls` is the tier's
`isLockingSupported()`. -/
inductive Step {α ε : Type} (ls : Bool) : MState α ε → MState α ε → Prop where
  /-- a new `getOrFetchValue(key, ttl, ·, lockTtl, sce)` call starts -/
  | spawn (s : MState α ε) (key : String) (ttl lockTtl : Nat)
      (sce : Option (ε → Bool)) :
      Step ls s { s with
        threads := s.threads ++ [⟨key, ttl, lockTtl, sce, .atGet1⟩] }
  /-- the compute promise `fid` settles with `r` (promises settle once) -/
  | settle (s : MState α ε) (fid : Nat) (r : FetchResult α ε) :
      fid < s.nextId → s.settled fid = none →
      Step ls s { s with
        settled := fun j => if j = fid then some r else s.settled j }
  /-- another caller mutates the tier (e.g. `setValue`/`delValue`) -/
  | cacheExt (s : MState α ε) (k : String) (w : Option (CV α ε)) :
      Step ls s { s with
        cache := fun k' => if k' = k then w else s.cache k' }
  /-- first read hit a stored error with error-caching enabled: throw -/
  | get1Throw (s : MState α ε) (i : Nat) (t : MThread α ε) (e : ε) :
      s.threads[i]? = some t → t.pc = .atGet1 →
      filterCached t.sce (s.cache t.key) = .throwIt e →
      Step ls s { s with
        threads := s.threads.set i { t with pc := .done none (.thrown e) } }
  /-- first read hit a value: return it -/
  | get1Hit (s : MState α ε) (i : Nat) (t : MThread α ε) (v : CV α ε) :
      s.threads[i]? = some t → t.pc = .atGet1 →
      filterCached t.sce (s.cache t.key) = .hit v →
      Step ls s { s with
        threads := s.threads.set i { t with pc := .done none (.ret (some v)) } }
  /-- first read missed and an in-flight record exists: return that
  same future (`return currentFetch`) -/
  | get1Attach (s : MState α ε) (i : Nat) (t : MThread α ε) (fid : Nat) :
      s.threads[i]? = some t → t.pc = .atGet1 →
      filterCached t.sce (s.cache t.key) = .miss →
      s.activeFetches.lookup t.key = some fid →
      Step ls s { s with
        threads := s.threads.set i { t with pc := .waiting fid } }
  /-- first read missed, no in-flight record, lock requested and
  supported: suspend in `this.lock` -/
  | get1Lock (s : MState α ε) (i : Nat) (t : MThread α ε) :
      s.threads[i]? = some t → t.pc = .atGet1 →
      filterCached t.sce (s.cache t.key) = .miss →
      s.activeFetches.lookup t.key = none →
      t.lockTtl ≠ 0 → ls = true →
      Step ls s { s with
        threads := s.threads.set i { t with pc := .awaitLock } }
  /-- first read missed, no in-flight record, no locking: install the
  fetch — invoke the compute function, mint the promise id, put it in
  the table (all in the same synchronous block) -/
  | get1Install (s : MState α ε) (i : Nat) (t : MThread α ε) :
      s.threads[i]? = some t → t.pc = .atGet1 →
      filterCached t.sce (s.cache t.key) = .miss →
      s.activeFetches.lookup t.key = none →
      (t.lockTtl = 0 ∨ ls = false) →
      Step ls s { s with
        activeFetches := dictInsert t.key s.nextId s.activeFetches,
        nextId := s.nextId + 1,
        computeLog := s.computeLog ++ [(t.key, s.nextId)],
        threads := s.threads.set i
          { t with pc := .ownerAwait s.nextId false } }
  /-- the distributed lock was acquired: proceed to the second check -/
  | lockAcquired (s : MState α ε) (i : Nat) (t : MThread α ε) :
      s.threads[i]? = some t → t.pc = .awaitLock →
      Step ls s { s with
        threads := s.threads.set i { t with pc := .awaitGet2 } }
  /-- `this.lock` rejected: the error propagates through the `finally`
  block (which deletes the table entry for the key; `lock` is falsy so
  nothing is unlocked) -/
  | lockFailed (s : MState α ε) (i : Nat) (t : MThread α ε) (e : ε) :
      s.threads[i]? = some t → t.pc = .awaitLock →
      Step ls s { s with
        activeFetches := dictErase t.key s.activeFetches,
        threads := s.threads.set i
          { t with pc := .done none (.thrown e) } }
  /-- second check found a stored error with error-caching enabled:
  throw through the `finally` block (delete, then unlock) -/
  | get2Throw (s : MState α ε) (i : Nat) (t : MThread α ε) (e : ε) :
      s.threads[i]? = some t → t.pc = .awaitGet2 →
      filterCached t.sce (s.cache t.key) = .throwIt e →
      Step ls s { s with
        activeFetches := dictErase t.key s.activeFetches,
        threads := s.threads.set i
          { t with pc := .awaitUnlock none (.thrown e) } }
  /-- second check found a value: return it through the `finally`
  block (delete, then unlock) -/
  | get2Hit (s : MState α ε) (i : Nat) (t : MThread α ε) (v : CV α ε) :
      s.threads[i]? = some t → t.pc = .awaitGet2 →
      filterCached t.sce (s.cache t.key) = .hit v →
      Step ls s { s with
        activeFetches := dictErase t.key s.activeFetches,
        threads := s.threads.set i
          { t with pc := .awaitUnlock none (.ret (some v)) } }
  /-- second check missed: install the fetch under the lock (the source
  does not re-check the table here, so this assignment may replace an
  entry another caller installed while this one was locking) -/
  | get2Install (s : MState α ε) (i : Nat) (t : MThread α ε) :
      s.threads[i]? = some t → t.pc = .awaitGet2 →
      filterCached t.sce (s.cache t.key) = .miss →
      Step ls s { s with
        activeFetches := dictInsert t.key s.nextId s.activeFetches,
        nextId := s.nextId + 1,
        computeLog := s.computeLog ++ [(t.key, s.nextId)],
        threads := s.threads.set i
          { t with pc := .ownerAwait s.nextId true } }
  /-- the owner's fetch settled and the policy stores a value: the
  `setValue` call writes the in-process map and the thread suspends on
  its promise -/
  | ownerSettleSet (s : MState α ε) (i : Nat) (t : MThread α ε)
      (fid : Nat) (locked : Bool) (r : FetchResult α ε) (v : CV α ε) :
      s.threads[i]? = some t → t.pc = .ownerAwait fid locked →
      s.settled fid = some r → cacheDecision r t.sce = some v →
      Step ls s { s with
        cache := fun k => if k = t.key then some v else s.cache k,
        threads := s.threads.set i
          { t with pc := .awaitSet fid locked v (settleOutcome r) } }
  /-- the owner's fetch settled and nothing is stored: run the
  `finally` block directly -/
  | ownerSettleNoSet (s : MState α ε) (i : Nat) (t : MThread α ε)
      (fid : Nat) (locked : Bool) (r : FetchResult α ε) :
      s.threads[i]? = some t → t.pc = .ownerAwait fid locked →
      s.settled fid = some r → cacheDecision r t.sce = none →
      Step ls s { s with
        activeFetches := dictErase t.key s.activeFetches,
        threads := s.threads.set i
          { t with pc := afterDelete locked (some fid) (settleOutcome r) } }
  /-- the `setValue` promise resolved: the `finally` block runs -/
  | setDone (s : MState α ε) (i : Nat) (t : MThread α ε) (fid : Nat)
      (locked : Bool) (v : CV α ε) (out : GoFOutcome α ε) :
      s.threads[i]? = some t → t.pc = .awaitSet fid locked v out →
      Step ls s { s with
        activeFetches := dictErase t.key s.activeFetches,
        threads := s.threads.set i
          { t with pc := afterDelete locked (some fid) out } }
  /-- a waiter's fetch settled: the waiter observes that settlement -/
  | waiterDone (s : MState α ε) (i : Nat) (t : MThread α ε) (fid : Nat)
      (r : FetchResult α ε) :
      s.threads[i]? = some t → t.pc = .waiting fid →
      s.settled fid = some r →
      Step ls s { s with
        threads := s.threads.set i
          { t with pc := .done (some fid) (settleOutcome r) } }
  /-- the unlock resolved: the call completes -/
  | unlockDone (s : MState α ε) (i : Nat) (t : MThread α ε)
      (joined : Option Nat) (out : GoFOutcome α ε) :
      s.threads[i]? = some t → t.pc = .awaitUnlock joined out →
      Step ls s { s with
        threads := s.threads.set i { t with pc := .done joined out } }

/-- The reachable states: any initial cache contents, no in-flight
records, no settled promises, no threads. -/
inductive Reachable {α ε : Type} (ls : Bool) : MState α ε → Prop where
  | init (cache₀ : String → Option (CV α ε)) :
      Reachable ls
        { cache := cache₀, activeFetches := [], nextId := 0,
          settled := fun _ => none, computeLog := [], threads := [] }
  | step {s s' : MState α ε} :
      Reachable ls s → Step ls s s' → Reachable ls s'

/-! ### The single-flight invariant -/

/-- Per-suspension-point invariant: a thread that installed or attached
to a fetch promise references a minted id, and every outcome a thread
carries past its fetch's settlement is that settlement's outcome. -/
def pcOk {α ε : Type} (s : MState α ε) : TPC α ε → Prop
  | .waiting fid => fid < s.nextId
  | .ownerAwait fid _ => fid < s.nextId
  | .awaitSet fid _ _ out =>
    fid < s.nextId ∧ ∃ r, s.settled fid = some r ∧ out = settleOutcome r
  | .awaitUnlock (some fid) out =>
    fid < s.nextId ∧ ∃ r, s.settled fid = some r ∧ out = settleOutcome r
  | .done (some fid) out =>
    fid < s.nextId ∧ ∃ r, s.settled fid = some r ∧ out = settleOutcome r
  | _ => True

/-- The machine invariant: the `activeFetches` dictionary has at most
one binding per key; every table entry and every logged compute
invocation references a minted promise id; no promise id is minted by
two compute invocations; and every thread satisfies `pcOk`. -/
def MachineInv {α ε : Type} (s : MState α ε) : Prop :=
  (s.activeFetches.map Prod.fst).Nodup ∧
  (∀ kf ∈ s.activeFetches, kf.2 < s.nextId) ∧
  (∀ kf ∈ s.computeLog, kf.2 < s.nextId) ∧
  (s.computeLog.map Prod.snd).Nodup ∧
  (∀ t ∈ s.threads, pcOk s t.pc)

/-- `dictInsert` keeps the keys duplicate-free. -/
theorem nodup_keys_dictInsert {β : Type} (k : String) (v : β)
    (d : List (String × β)) (h : (d.map Prod.fst).Nodup) :
    ((dictInsert k v d).map Prod.fst).Nodup := by
  unfold dictInsert
  simp only [List.map_cons]
  refine List.Nodup.cons ?_ ?_
  · intro hmem
    obtain ⟨e, he, hek⟩ := List.mem_map.mp hmem
    have h2 := List.of_mem_filter he
    simp only [bne_iff_ne, ne_eq] at h2
    exact h2 hek
  · exact h.sublist ((List.filter_sublist d).map Prod.fst)

/-- `dictErase` keeps the keys duplicate-free. -/
theorem nodup_keys_dictErase {β : Type} (k : String)
    (d : List (String × β)) (h : (d.map Prod.fst).Nodup) :
    ((dictErase k d).map Prod.fst).Nodup :=
  h.sublist ((List.filter_sublist d).map Prod.fst)

/-- Membership after a `dictInsert`. -/
theorem mem_dictInsert {β : Type} {kf : String × β} {k : String} {v : β}
    {d : List (String × β)} (h : kf ∈ dictInsert k v d) :
    kf = (k, v) ∨ kf ∈ d := by
  unfold dictInsert at h
  rcases List.mem_cons.mp h with h | h
  · exact Or.inl h
  · exact Or.inr (List.mem_of_mem_filter h)

/-- Membership after a `dictErase`. -/
theorem mem_dictErase {β : Type} {kf : String × β} {k : String}
    {d : List (String × β)} (h : kf ∈ dictErase k d) : kf ∈ d :=
  List.mem_of_mem_filter h

/-- A step never un-mints a promise id. -/
theorem Step.nextId_le {α ε : Type} {ls : Bool} {s s' : MState α ε}
    (h : Step ls s s') : s.nextId ≤ s'.nextId := by
  cases h <;> simp [Nat.le_succ]

/-- A settled promise stays settled with the same result (promises
settle once: the `settle` step requires the slot to be empty). -/
theorem Step.settled_mono {α ε : Type} {ls : Bool} {s s' : MState α ε}
    (h : Step ls s s') (fid : Nat) (r : FetchResult α ε)
    (hs : s.settled fid = some r) : s'.settled fid = some r := by
  cases h with
  | settle fid' r' hlt hnone =>
    show (if fid = fid' then some r' else s.settled fid) = some r
    by_cases heq : fid = fid'
    · subst heq
      rw [hs] at hnone
      simp at hnone
    · rw [if_neg heq]
      exact hs
  | spawn key ttl lockTtl sce => exact hs
  | cacheExt k w => exact hs
  | get1Throw i t e h1 h2 h3 => exact hs
  | get1Hit i t v h1 h2 h3 => exact hs
  | get1Attach i t fid' h1 h2 h3 h4 => exact hs
  | get1Lock i t h1 h2 h3 h4 h5 h6 => exact hs
  | get1Install i t h1 h2 h3 h4 h5 => exact hs
  | lockAcquired i t h1 h2 => exact hs
  | lockFailed i t e h1 h2 => exact hs
  | get2Throw i t e h1 h2 h3 => exact hs
  | get2Hit i t v h1 h2 h3 => exact hs
  | get2Install i t h1 h2 h3 => exact hs
  | ownerSettleSet i t fid' locked r' v h1 h2 h3 h4 => exact hs
  | ownerSettleNoSet i t fid' locked r' h1 h2 h3 h4 => exact hs
  | setDone i t fid' locked v out h1 h2 => exact hs
  | waiterDone i t fid' r' h1 h2 h3 => exact hs
  | unlockDone i t joined out h1 h2 => exact hs

/-- `pcOk` is monotone in the promise mint and the settlements. -/
theorem pcOk_mono {α ε : Type} {s s' : MState α ε}
    (hn : s.nextId ≤ s'.nextId)
    (hs : ∀ fid r, s.settled fid = some r → s'.settled fid = some r) :
    ∀ pc, pcOk s pc → pcOk s' pc := by
  intro pc h
  cases pc with
  | atGet1 => trivial
  | awaitLock => trivial
  | awaitGet2 => trivial
  | waiting fid => exact lt_of_lt_of_le h hn
  | ownerAwait fid locked => exact lt_of_lt_of_le h hn
  | awaitSet fid locked v out =>
    obtain ⟨hlt, r, hr, hout⟩ := h
    exact ⟨lt_of_lt_of_le hlt hn, r, hs _ _ hr, hout⟩
  | awaitUnlock joined out =>
    cases joined with
    | none => trivial
    | some fid =>
      obtain ⟨hlt, r, hr, hout⟩ := h
      exact ⟨lt_of_lt_of_le hlt hn, r, hs _ _ hr, hout⟩
  | done joined out =>
    cases joined with
    | none => trivial
    | some fid =>
      obtain ⟨hlt, r, hr, hout⟩ := h
      exact ⟨lt_of_lt_of_le hlt hn, r, hs _ _ hr, hout⟩

/-- A successful `List.lookup` pairs the key with a bound value of the
list. -/
theorem mem_of_lookup_eq_some {β : Type} {k : String} {v : β} :
    ∀ {d : List (String × β)}, d.lookup k = some v → (k, v) ∈ d := by
  intro d
  induction d with
  | nil => intro h; simp at h
  | cons e rest ih =>
    intro h
    obtain ⟨k', b⟩ := e
    simp only [List.lookup] at h
    split at h
    · next heq =>
      cases h
      rw [beq_iff_eq] at heq
      subst heq
      exact List.mem_cons_self _ _
    · next => exact List.mem_cons_of_mem _ (ih h)

/-- A thread looked up by index is a thread of the state. -/
theorem mem_of_threads_getElem {α ε : Type} {s : MState α ε} {i : Nat}
    {t : MThread α ε} (h : s.threads[i]? = some t) : t ∈ s.threads := by
  rcases List.getElem?_eq_some_iff.mp h with ⟨hlt, hget⟩
  exact hget ▸ List.getElem_mem hlt

/-- The machine invariant is preserved by every step. -/
theorem MachineInv.step {α ε : Type} {ls : Bool} {s s' : MState α ε}
    (hinv : MachineInv s) (hst : Step ls s s') : MachineInv s' := by
  obtain ⟨hA, hB, hC, hD, hT⟩ := hinv
  have hmono : ∀ u ∈ s.threads, pcOk s' u.pc := fun u hu =>
    pcOk_mono hst.nextId_le (fun fid r hr => hst.settled_mono fid r hr) _
      (hT u hu)
  cases hst with
  | spawn key ttl lockTtl sce =>
    refine ⟨hA, hB, hC, hD, ?_⟩
    intro u hu
    rcases List.mem_append.mp hu with h | h
    · exact hT u h
    · simp only [List.mem_singleton] at h
      subst h
      trivial
  | settle fid r hlt hnone =>
    exact ⟨hA, hB, hC, hD, fun u hu => hmono u hu⟩
  | cacheExt k w => exact ⟨hA, hB, hC, hD, hT⟩
  | get1Throw i t e h1 h2 h3 =>
    refine ⟨hA, hB, hC, hD, ?_⟩
    intro u hu
    rcases List.mem_or_eq_of_mem_set hu with h | h
    · exact hT u h
    · subst h
      trivial
  | get1Hit i t v h1 h2 h3 =>
    refine ⟨hA, hB, hC, hD, ?_⟩
    intro u hu
    rcases List.mem_or_eq_of_mem_set hu with h | h
    · exact hT u h
    · subst h
      trivial
  | get1Attach i t fid h1 h2 h3 h4 =>
    refine ⟨hA, hB, hC, hD, ?_⟩
    intro u hu
    rcases List.mem_or_eq_of_mem_set hu with h | h
    · exact hT u h
    · subst h
      exact hB _ (mem_of_lookup_eq_some h4)
  | get1Lock i t h1 h2 h3 h4 h5 h6 =>
    refine ⟨hA, hB, hC, hD, ?_⟩
    intro u hu
    rcases List.mem_or_eq_of_mem_set hu with h | h
    · exact hT u h
    · subst h
      trivial
  | get1Install i t h1 h2 h3 h4 h5 =>
    refine ⟨nodup_keys_dictInsert _ _ _ hA, ?_, ?_, ?_, ?_⟩
    · intro kf hkf
      rcases mem_dictInsert hkf with h | h
      · rw [h]
        exact Nat.lt_succ_self _
      · exact Nat.lt_succ_of_lt (hB _ h)
    · intro kf hkf
      rcases List.mem_append.mp hkf with h | h
      · exact Nat.lt_succ_of_lt (hC _ h)
      · simp only [List.mem_singleton] at h
        rw [h]
        exact Nat.lt_succ_self _
    · rw [List.map_append]
      refine List.nodup_append.mpr ⟨hD, List.nodup_singleton _, ?_⟩
      intro a ha hb
      simp only [List.map_cons, List.map_nil, List.mem_singleton] at hb
      obtain ⟨kf, hkf, hsnd⟩ := List.mem_map.mp ha
      have := hC _ hkf
      omega
    · intro u hu
      rcases List.mem_or_eq_of_mem_set hu with h | h
      · exact hmono u h
      · subst h
        exact Nat.lt_succ_self _
  | lockAcquired i t h1 h2 =>
    refine ⟨hA, hB, hC, hD, ?_⟩
    intro u hu
    rcases List.mem_or_eq_of_mem_set hu with h | h
    · exact hT u h
    · subst h
      trivial
  | lockFailed i t e h1 h2 =>
    refine ⟨nodup_keys_dictErase _ _ hA, fun kf hkf => hB _ (mem_dictErase hkf),
      hC, hD, ?_⟩
    intro u hu
    rcases List.mem_or_eq_of_mem_set hu with h | h
    · exact hT u h
    · subst h
      trivial
  | get2Throw i t e h1 h2 h3 =>
    refine ⟨nodup_keys_dictErase _ _ hA, fun kf hkf => hB _ (mem_dictErase hkf),
      hC, hD, ?_⟩
    intro u hu
    rcases List.mem_or_eq_of_mem_set hu with h | h
    · exact hT u h
    · subst h
      trivial
  | get2Hit i t v h1 h2 h3 =>
    refine ⟨nodup_keys_dictErase _ _ hA, fun kf hkf => hB _ (mem_dictErase hkf),
      hC, hD, ?_⟩
    intro u hu
    rcases List.mem_or_eq_of_mem_set hu with h | h
    · exact hT u h
    · subst h
      trivial
  | get2Install i t h1 h2 h3 =>
    refine ⟨nodup_keys_dictInsert _ _ _ hA, ?_, ?_, ?_, ?_⟩
    · intro kf hkf
      rcases mem_dictInsert hkf with h | h
      · rw [h]
        exact Nat.lt_succ_self _
      · exact Nat.lt_succ_of_lt (hB _ h)
    · intro kf hkf
      rcases List.mem_append.mp hkf with h | h
      · exact Nat.lt_succ_of_lt (hC _ h)
      · simp only [List.mem_singleton] at h
        rw [h]
        exact Nat.lt_succ_self _
    · rw [List.map_append]
      refine List.nodup_append.mpr ⟨hD, List.nodup_singleton _, ?_⟩
      intro a ha hb
      simp only [List.map_cons, List.map_nil, List.mem_singleton] at hb
      obtain ⟨kf, hkf, hsnd⟩ := List.mem_map.mp ha
      have := hC _ hkf
      omega
    · intro u hu
      rcases List.mem_or_eq_of_mem_set hu with h | h
      · exact hmono u h
      · subst h
        exact Nat.lt_succ_self _
  | ownerSettleSet i t fid locked r v h1 h2 h3 h4 =>
    refine ⟨hA, hB, hC, hD, ?_⟩
    intro u hu
    rcases List.mem_or_eq_of_mem_set hu with h | h
    · exact hT u h
    · subst h
      have hown := hT t (mem_of_threads_getElem h1)
      rw [h2] at hown
      exact ⟨hown, r, h3, rfl⟩
  | ownerSettleNoSet i t fid locked r h1 h2 h3 h4 =>
    refine ⟨nodup_keys_dictErase _ _ hA, fun kf hkf => hB _ (mem_dictErase hkf),
      hC, hD, ?_⟩
    intro u hu
    rcases List.mem_or_eq_of_mem_set hu with h | h
    · exact hT u h
    · subst h
      have hown := hT t (mem_of_threads_getElem h1)
      rw [h2] at hown
      cases locked with
      | true => exact ⟨hown, r, h3, rfl⟩
      | false => exact ⟨hown, r, h3, rfl⟩
  | setDone i t fid locked v out h1 h2 =>
    refine ⟨nodup_keys_dictErase _ _ hA, fun kf hkf => hB _ (mem_dictErase hkf),
      hC, hD, ?_⟩
    intro u hu
    rcases List.mem_or_eq_of_mem_set hu with h | h
    · exact hT u h
    · subst h
      have hown := hT t (mem_of_threads_getElem h1)
      rw [h2] at hown
      obtain ⟨hlt, r, hr, hout⟩ := hown
      cases locked with
      | true => exact ⟨hlt, r, hr, hout⟩
      | false => exact ⟨hlt, r, hr, hout⟩
  | waiterDone i t fid r h1 h2 h3 =>
    refine ⟨hA, hB, hC, hD, ?_⟩
    intro u hu
    rcases List.mem_or_eq_of_mem_set hu with h | h
    · exact hT u h
    · subst h
      have hw := hT t (mem_of_threads_getElem h1)
      rw [h2] at hw
      exact ⟨hw, r, h3, rfl⟩
  | unlockDone i t joined out h1 h2 =>
    refine ⟨hA, hB, hC, hD, ?_⟩
    intro u hu
    rcases List.mem_or_eq_of_mem_set hu with h | h
    · exact hT u h
    · subst h
      have hw := hT t (mem_of_threads_getElem h1)
      rw [h2] at hw
      cases joined with
      | none => trivial
      | some fid => exact hw

/-- The machine invariant holds in every reachable state. -/
theorem MachineInv.reachable {α ε : Type} {ls : Bool} {s : MState α ε}
    (h : Reachable ls s) : MachineInv s := by
  induction h with
  | init cache₀ =>
    refine ⟨List.nodup_nil, ?_, ?_, List.nodup_nil, ?_⟩ <;> simp
  | step _ hst ih => exact ih.step hst

/-- **C1** Single-flight per process.  In every reachable state of the
interleaving machine for `getOrFetchValue`:

* the `activeFetches` table holds at most one in-flight record per key
  (its keys are duplicate-free — it is a JS dictionary, and
  `Step.get1Attach` is the only transition available to a caller that
  arrives at a key with a pending record: it is handed that same
  future);
* the compute function runs at most once per installed future: the
  compute-invocation log mints a fresh promise id at each invocation,
  so no two invocations serve the same future; and
* all callers that completed through the same future — the installer
  and every waiter attached before (or after) the fetch settled —
  observe the same outcome: the same value or the same error. -/
theorem getOrFetchValue_single_flight {α ε : Type} (ls : Bool)
    (s : MState α ε) (h : Reachable ls s) :
    (s.activeFetches.map Prod.fst).Nodup ∧
    (s.computeLog.map Prod.snd).Nodup ∧
    (∀ t₁ ∈ s.threads, ∀ t₂ ∈ s.threads, ∀ fid o₁ o₂,
      t₁.pc = .done (some fid) o₁ → t₂.pc = .done (some fid) o₂ →
      o₁ = o₂) := by
  obtain ⟨hA, hB, hC, hD, hT⟩ := MachineInv.reachable h
  refine ⟨hA, hD, ?_⟩
  intro t₁ h₁ t₂ h₂ fid o₁ o₂ hp₁ hp₂
  have k₁ := hT t₁ h₁
  have k₂ := hT t₂ h₂
  rw [hp₁] at k₁
  rw [hp₂] at k₂
  obtain ⟨_, r₁, hr₁, ho₁⟩ := k₁
  obtain ⟨_, r₂, hr₂, ho₂⟩ := k₂
  rw [hr₁] at hr₂
  cases hr₂
  rw [ho₁, ho₂]

/-- A concrete reachable state for `getOrFetchValue_single_flight`: one
call on key `k` spawned and then installing its fetch. -/
def c1WitnessState : MState Nat Nat :=
  { cache := fun _ => none,
    activeFetches := [("k", 0)],
    nextId := 1,
    settled := fun _ => none,
    computeLog := [("k", 0)],
    threads := [{ key := "k", ttl := 1, lockTtl := 0, sce := none,
                  pc := .ownerAwait 0 false }] }

/-- Witness for `getOrFetchValue_single_flight` at a concrete two-step
trace: spawn one call, let it install its fetch. -/
theorem getOrFetchValue_single_flight_witness :
    ((c1WitnessState.activeFetches.map Prod.fst).Nodup ∧
    (c1WitnessState.computeLog.map Prod.snd).Nodup ∧
    (∀ t₁ ∈ c1WitnessState.threads, ∀ t₂ ∈ c1WitnessState.threads,
      ∀ fid o₁ o₂,
      t₁.pc = .done (some fid) o₁ → t₂.pc = .done (some fid) o₂ →
      o₁ = o₂)) :=
  getOrFetchValue_single_flight false c1WitnessState
    (Reachable.step
      (Reachable.step (Reachable.init (fun _ => none))
        (Step.spawn _ "k" 1 0 none))
      (Step.get1Install _ 0
        { key := "k", ttl := 1, lockTtl := 0, sce := none, pc := .atGet1 }
        rfl rfl rfl rfl (Or.inl rfl)))

end Cachette
